import Mathlib

/-!
Shallow embedding of the debt payoff simulator (debt_dashboard.py).

Money values are modelled as exact rationals.  Pandas column operations
become list operations; the per-month loop becomes a fuel recursion whose
fuel is the month horizon.  The sort performed by sort_values on two
columns is a stable sort, modelled by insertion sort on the enumerated
row list with the corresponding lexicographic total preorder.
-/

namespace DebtDashboard

/-- The payoff threshold used throughout the source: balances at or below
0.01 count as paid. -/
def payoffEps : ℚ := 1 / 100

/-! ## Dates (datetime model) and next_month -/

/-- A calendar date, as in datetime(year, month, day). -/
structure Date where
  year : ℕ
  month : ℕ
  day : ℕ
deriving DecidableEq, Repr

/-- Gregorian leap year test, as implemented by the datetime library. -/
def isLeap (y : ℕ) : Bool :=
  (y % 4 = 0 && y % 100 ≠ 0) || y % 400 = 0

/-- Number of days of month m in year y, per the datetime library. -/
def daysInMonth (y m : ℕ) : ℕ :=
  if m = 2 then (if isLeap y then 29 else 28)
  else if m = 4 ∨ m = 6 ∨ m = 9 ∨ m = 11 then 30
  else 31

/-- Embedding of next_month from the source.  The December branch builds
datetime(y+1, 1, day) directly.  Otherwise datetime(y, m+1, day) succeeds
exactly when day is at most the length of month m+1; on ValueError the
source returns datetime(y, m+1, 1) - timedelta(days=1), which is the last
day of month m (the current month). -/
def next_month (dt : Date) : Date :=
  if dt.month = 12 then ⟨dt.year + 1, 1, dt.day⟩
  else if dt.day ≤ daysInMonth dt.year (dt.month + 1) then
    ⟨dt.year, dt.month + 1, dt.day⟩
  else
    ⟨dt.year, dt.month, daysInMonth dt.year dt.month⟩

/-! ## Data model -/

/-- One row of the debts table after load_data coercion. -/
structure Debt where
  name : String
  balance : ℚ
  rate : ℚ
  payment : ℚ
  extra : ℚ
deriving DecidableEq, Repr

/-- The strategy radio button. -/
inductive Strategy where
  | snowball
  | avalanche
deriving DecidableEq, Repr

/-- The sidebar assumptions consumed by simulate. -/
structure Params where
  extra_budget : ℚ
  max_months : ℤ
  start_date : Date
  min_floor : ℚ
  strategy : Strategy
deriving DecidableEq, Repr

/-- Cell coercion of load_data: pd.to_numeric(col, errors="coerce").fillna(0.0).
A missing or non-numeric cell is none and becomes 0.0; a numeric cell
(negative included) is kept. -/
def coerceCell (v : Option ℚ) : ℚ := v.getD 0

/-- Pre-loop normalization: d.loc[d[Payment] <= 0, Payment] = min_floor. -/
def normalize (min_floor : ℚ) (d : Debt) : Debt :=
  if d.payment ≤ 0 then { d with payment := min_floor } else d

/-! ## Strategy ordering (order_debts) -/

/-- Sort key of a row: (Balance, Rate) for Snowball, (Rate, Balance) for
Avalanche. -/
def keyOf (s : Strategy) (d : Debt) : ℚ × ℚ :=
  match s with
  | .snowball => (d.balance, d.rate)
  | .avalanche => (d.rate, d.balance)

/-- The total preorder used by sort_values on the enumerated rows:
Snowball is Balance ascending then Rate descending, Avalanche is Rate
descending then Balance ascending. -/
def keyLE (s : Strategy) (a b : ℕ × Debt) : Prop :=
  match s with
  | .snowball =>
      a.2.balance < b.2.balance ∨ (a.2.balance = b.2.balance ∧ b.2.rate ≤ a.2.rate)
  | .avalanche =>
      b.2.rate < a.2.rate ∨ (a.2.rate = b.2.rate ∧ a.2.balance ≤ b.2.balance)

instance keyLEDecidable (s : Strategy) : DecidableRel (keyLE s) := by
  intro a b
  cases s <;> · unfold keyLE; infer_instance

instance keyLETotal (s : Strategy) : IsTotal (ℕ × Debt) (keyLE s) := by
  constructor
  intro a b
  cases s
  · unfold keyLE
    rcases lt_trichotomy a.2.balance b.2.balance with h | h | h
    · exact Or.inl (Or.inl h)
    · rcases le_total b.2.rate a.2.rate with h2 | h2
      · exact Or.inl (Or.inr ⟨h, h2⟩)
      · exact Or.inr (Or.inr ⟨h.symm, h2⟩)
    · exact Or.inr (Or.inl h)
  · unfold keyLE
    rcases lt_trichotomy a.2.rate b.2.rate with h | h | h
    · exact Or.inr (Or.inl h)
    · rcases le_total a.2.balance b.2.balance with h2 | h2
      · exact Or.inl (Or.inr ⟨h, h2⟩)
      · exact Or.inr (Or.inr ⟨h.symm, h2⟩)
    · exact Or.inl (Or.inl h)

instance keyLETrans (s : Strategy) : IsTrans (ℕ × Debt) (keyLE s) := by
  constructor
  intro a b c hab hbc
  cases s
  · unfold keyLE at hab hbc ⊢
    rcases hab with h | ⟨h1, h2⟩ <;> rcases hbc with h3 | ⟨h3, h4⟩
    · exact Or.inl (lt_trans h h3)
    · exact Or.inl (h3 ▸ h)
    · exact Or.inl (by rw [h1]; exact h3)
    · exact Or.inr ⟨h1.trans h3, le_trans h4 h2⟩
  · unfold keyLE at hab hbc ⊢
    rcases hab with h | ⟨h1, h2⟩ <;> rcases hbc with h3 | ⟨h3, h4⟩
    · exact Or.inl (lt_trans h3 h)
    · exact Or.inl (h3 ▸ h)
    · exact Or.inl (by rw [h1]; exact h3)
    · exact Or.inr ⟨h1.trans h3, le_trans h2 h4⟩

/-- Embedding of sort_values on the two key columns followed by
.index.tolist(): a stable sort of the enumerated rows.  Pandas uses a
stable lexicographic sort when sorting on several columns; insertion
sort with the total preorder keyLE realises exactly that. -/
def orderKeyed (s : Strategy) (d : List Debt) : List (ℕ × Debt) :=
  List.insertionSort (keyLE s) d.enum

/-- Embedding of order_debts: the positional indices of the rows in
strategy order. -/
def order_debts (s : Strategy) (d : List Debt) : List ℕ :=
  (orderKeyed s d).map Prod.fst

/-! ## One simulated month -/

/-- Monthly interest accrual: balance * (rate / 12). -/
def interestOf (d : Debt) : ℚ := d.balance * (d.rate / 12)

/-- total_pay for one row: base payment clipped at 0, plus the row's own
Extra, plus the shared extra budget when this row is the focus and the
budget is positive. -/
def totalPayOf (eb : ℚ) (isFocus : Bool) (d : Debt) : ℚ :=
  max d.payment 0 + d.extra + (if isFocus && decide (0 < eb) then eb else 0)

/-- applied for one row: total payment capped at balance + interest. -/
def appliedOf (eb : ℚ) (isFocus : Bool) (d : Debt) : ℚ :=
  min (totalPayOf eb isFocus d) (d.balance + interestOf d)

/-- New balance for one row: balance + interest - applied, clipped at 0. -/
def newBalOf (eb : ℚ) (isFocus : Bool) (d : Debt) : ℚ :=
  max (d.balance + interestOf d - appliedOf eb isFocus d) 0

/-- Everything the body of the while loop computes in one month. -/
structure StepOut where
  interest : List ℚ
  pays : List ℚ
  applied : List ℚ
  newDebts : List Debt
  focus : Option (ℕ × Debt)
deriving DecidableEq, Repr

/-- The focus search of the source: walk the strategy order and pick the
first row whose balance exceeds 0.01. -/
def findFocus (s : Strategy) (ds : List Debt) : Option (ℕ × Debt) :=
  (orderKeyed s ds).find? (fun p => decide (payoffEps < p.2.balance))

/-- Whether row i is the focus row, given the focus search result. -/
def isFocusIdx (f : Option (ℕ × Debt)) (i : ℕ) : Bool :=
  match f with
  | some p => decide (i = p.1)
  | none => false

/-- One iteration of the while loop on the current table ds. -/
def stepMonth (s : Strategy) (eb : ℚ) (ds : List Debt) : StepOut :=
  { interest := ds.map interestOf
    pays := ds.enum.map (fun p => totalPayOf eb (isFocusIdx (findFocus s ds) p.1) p.2)
    applied := ds.enum.map (fun p => appliedOf eb (isFocusIdx (findFocus s ds) p.1) p.2)
    newDebts := ds.enum.map
      (fun p => { p.2 with balance := newBalOf eb (isFocusIdx (findFocus s ds) p.1) p.2 })
    focus := findFocus s ds }

/-! ## The month loop -/

/-- One record of the history list. -/
structure Monthly where
  date : Date
  month : ℕ
  totalBalance : ℚ
  totalInterest : ℚ
  totalPayment : ℚ
  focusName : String
deriving DecidableEq, Repr

/-- A fully instrumented month of the run: the date and month index, the
table at the start of the month, and everything the loop body computed. -/
structure MonthEntry where
  date : Date
  idx : ℕ
  pre : List Debt
  out : StepOut
deriving DecidableEq, Repr

/-- The history record appended by the source for one month. -/
def toMonthly (e : MonthEntry) : Monthly :=
  { date := e.date
    month := e.idx
    totalBalance := (e.out.newDebts.map Debt.balance).sum
    totalInterest := e.out.interest.sum
    totalPayment := e.out.applied.sum
    focusName :=
      match e.out.focus with
      | some p => p.2.name
      | none => "" }

/-- The loop guard (d[Balance] > 0.01).any(). -/
def anyUnpaid (ds : List Debt) : Bool :=
  ds.any (fun d => decide (payoffEps < d.balance))

/-- The while loop: fuel counts the months still allowed by max_months.
Returns the trace of executed months and the final table. -/
def simLoop (P : Params) : ℕ → Date → ℕ → List Debt → List MonthEntry × List Debt
  | 0, _, _, ds => ([], ds)
  | fuel + 1, date, m, ds =>
      if anyUnpaid ds then
        let so := stepMonth P.strategy P.extra_budget ds
        let rest := simLoop P fuel (next_month date) (m + 1) so.newDebts
        (⟨date, m, ds, so⟩ :: rest.1, rest.2)
      else ([], ds)

/-- The full instrumented run of simulate on an input table. -/
def simTrace (P : Params) (input : List Debt) : List MonthEntry :=
  (simLoop P P.max_months.toNat P.start_date 0 (input.map (normalize P.min_floor))).1

/-- Final per-debt row of the result table: the original row, its ending
balance and the paid flag. -/
structure DebtResult where
  orig : Debt
  ending : ℚ
  isPaid : Bool
deriving DecidableEq, Repr

/-- Embedding of simulate: history records plus the per-debt result built
from the original input rows and the final balances. -/
def simulate (P : Params) (input : List Debt) : List Monthly × List DebtResult :=
  let r := simLoop P P.max_months.toNat P.start_date 0 (input.map (normalize P.min_floor))
  (r.1.map toMonthly,
   List.zipWith (fun o f => ⟨o, f.balance, decide (f.balance ≤ payoffEps)⟩) input r.2)

/-! ## Concrete scenarios used by the testable properties -/

/-- Bool check that a list of amounts is strictly decreasing. -/
def strictDecreasing : List ℚ → Bool
  | [] => true
  | [_] => true
  | a :: b :: t => decide (b < a) && strictDecreasing (b :: t)

/-- Assumptions of the two-debt Snowball scenario of the spec (min_floor 25,
extra budget 200). -/
def snowParams : Params := ⟨200, 600, ⟨2025, 1, 1⟩, 25, .snowball⟩

/-- Debts of the two-debt Snowball scenario of the spec. -/
def snowDebts : List Debt := [⟨"A", 500, 0, 0, 0⟩, ⟨"B", 5000, 1/5, 50, 0⟩]

/-- Assumptions of the one-debt Avalanche scenario of the spec. -/
def avaParams : Params := ⟨0, 600, ⟨2025, 1, 1⟩, 0, .avalanche⟩

/-- The one debt of the Avalanche scenario: 1200 at 12 percent, payment 100. -/
def avaDebts : List Debt := [⟨"L", 1200, 12/100, 100, 0⟩]

/-- A run in which debt A reaches balance exactly 0 after the first month
while debt B keeps the loop going. -/
def zeroHitParams : Params := ⟨0, 10, ⟨2025, 1, 1⟩, 0, .snowball⟩

/-- Debts for the exact-zero payoff run. -/
def zeroHitDebts : List Debt := [⟨"A", 100, 0, 100, 0⟩, ⟨"B", 30, 0, 10, 0⟩]

/-- A run in which debt A lands on the residual balance 0.005, inside the
paid-off tolerance but not exactly zero. -/
def residualParams : Params := ⟨0, 10, ⟨2025, 1, 1⟩, 0, .snowball⟩

/-- Debts for the residual-balance run: A ends month 0 at 1/200. -/
def residualDebts : List Debt := [⟨"A", 100 + 1/200, 0, 100, 0⟩, ⟨"B", 1000, 0, 10, 0⟩]

/-- Invalid assumptions: a negative minimum-payment floor. -/
def negFloorParams : Params := ⟨0, 1, ⟨2025, 1, 1⟩, -10, .snowball⟩

/-- A single unpaid debt fed to the negative-floor run. -/
def negFloorDebts : List Debt := [⟨"A", 100, 0, 0, 0⟩]

/-- A run whose single debt carries a negative Extra cell. -/
def negExtraParams : Params := ⟨0, 1, ⟨2025, 1, 1⟩, 0, .snowball⟩

/-- The debt with Extra = -50 surviving coercion. -/
def negExtraDebts : List Debt := [⟨"X", 100, 0, 10, -50⟩]

/-! ## Lemmas about one month -/

lemma stepMonth_interest (s : Strategy) (eb : ℚ) (ds : List Debt) :
    (stepMonth s eb ds).interest = ds.map interestOf := rfl

lemma stepMonth_focus (s : Strategy) (eb : ℚ) (ds : List Debt) :
    (stepMonth s eb ds).focus = findFocus s ds := rfl

lemma stepMonth_pays_getElem? (s : Strategy) (eb : ℚ) (ds : List Debt) (i : ℕ) :
    (stepMonth s eb ds).pays[i]? =
      ds[i]?.map (fun d => totalPayOf eb (isFocusIdx (findFocus s ds) i) d) := by
  simp only [stepMonth, List.getElem?_map, List.getElem?_enum, Option.map_map]
  rfl

lemma stepMonth_applied_getElem? (s : Strategy) (eb : ℚ) (ds : List Debt) (i : ℕ) :
    (stepMonth s eb ds).applied[i]? =
      ds[i]?.map (fun d => appliedOf eb (isFocusIdx (findFocus s ds) i) d) := by
  simp only [stepMonth, List.getElem?_map, List.getElem?_enum, Option.map_map]
  rfl

lemma stepMonth_newDebts_getElem? (s : Strategy) (eb : ℚ) (ds : List Debt) (i : ℕ) :
    (stepMonth s eb ds).newDebts[i]? =
      ds[i]?.map (fun d => { d with balance := newBalOf eb (isFocusIdx (findFocus s ds) i) d }) := by
  simp only [stepMonth, List.getElem?_map, List.getElem?_enum, Option.map_map]
  rfl

lemma appliedOf_le_cap (eb : ℚ) (f : Bool) (d : Debt) :
    appliedOf eb f d ≤ d.balance + interestOf d :=
  min_le_right _ _

lemma newBalOf_nonneg (eb : ℚ) (f : Bool) (d : Debt) : 0 ≤ newBalOf eb f d :=
  le_max_right _ _

lemma totalPayOf_nonneg (eb : ℚ) (f : Bool) {d : Debt} (hx : 0 ≤ d.extra) :
    0 ≤ totalPayOf eb f d := by
  unfold totalPayOf
  have h1 : (0:ℚ) ≤ max d.payment 0 := le_max_right _ _
  have h2 : (0:ℚ) ≤ (if f && decide (0 < eb) then eb else 0) := by
    split
    · next h => exact (of_decide_eq_true (Bool.and_elim_right h)).le
    · exact le_refl 0
  linarith

lemma interestOf_of_zero {d : Debt} (hb : d.balance = 0) : interestOf d = 0 := by
  simp [interestOf, hb]

lemma appliedOf_of_zero (eb : ℚ) (f : Bool) {d : Debt} (hb : d.balance = 0)
    (hx : 0 ≤ d.extra) : appliedOf eb f d = 0 := by
  unfold appliedOf
  rw [interestOf_of_zero hb, hb, add_zero]
  exact min_eq_right (totalPayOf_nonneg eb f hx)

lemma newBalOf_of_zero (eb : ℚ) (f : Bool) {d : Debt} (hb : d.balance = 0)
    (hx : 0 ≤ d.extra) : newBalOf eb f d = 0 := by
  unfold newBalOf
  rw [interestOf_of_zero hb, hb, appliedOf_of_zero eb f hb hx]
  simp

lemma debt_update_zero {d : Debt} (hb : d.balance = 0) :
    { d with balance := (0:ℚ) } = d := by
  cases d
  simp_all

lemma normalize_balance (mf : ℚ) (d : Debt) : (normalize mf d).balance = d.balance := by
  unfold normalize
  split <;> rfl

lemma normalize_rate (mf : ℚ) (d : Debt) : (normalize mf d).rate = d.rate := by
  unfold normalize
  split <;> rfl

lemma normalize_extra (mf : ℚ) (d : Debt) : (normalize mf d).extra = d.extra := by
  unfold normalize
  split <;> rfl

lemma stepMonth_newDebts_balance_nonneg (s : Strategy) (eb : ℚ) (ds : List Debt) :
    ∀ d ∈ (stepMonth s eb ds).newDebts, 0 ≤ d.balance := by
  intro d hd
  simp only [stepMonth, List.mem_map] at hd
  obtain ⟨p, _, rfl⟩ := hd
  exact newBalOf_nonneg _ _ _

/-! ## Lemmas about the month loop -/

lemma simLoop_cons (P : Params) (f : ℕ) (date : Date) (m : ℕ) (ds : List Debt)
    (hu : anyUnpaid ds = true) :
    simLoop P (f + 1) date m ds =
      (⟨date, m, ds, stepMonth P.strategy P.extra_budget ds⟩ ::
        (simLoop P f (next_month date) (m + 1)
          (stepMonth P.strategy P.extra_budget ds).newDebts).1,
       (simLoop P f (next_month date) (m + 1)
          (stepMonth P.strategy P.extra_budget ds).newDebts).2) := by
  simp [simLoop, hu]

lemma simLoop_stop (P : Params) (fuel : ℕ) (date : Date) (m : ℕ) (ds : List Debt)
    (h : anyUnpaid ds = false) :
    (simLoop P fuel date m ds).1 = [] ∧ (simLoop P fuel date m ds).2 = ds := by
  cases fuel <;> simp [simLoop, h]

lemma simLoop_trace_length (P : Params) :
    ∀ (fuel : ℕ) (date : Date) (m : ℕ) (ds : List Debt),
      (simLoop P fuel date m ds).1.length ≤ fuel := by
  intro fuel
  induction fuel with
  | zero => intro date m ds; simp [simLoop]
  | succ f ih =>
    intro date m ds
    by_cases hu : anyUnpaid ds
    · rw [simLoop_cons P f date m ds hu]
      simpa using ih (next_month date) (m + 1) _
    · rw [(simLoop_stop P (f + 1) date m ds (by simpa using hu)).1]
      simp

lemma simLoop_mem_out (P : Params) :
    ∀ (fuel : ℕ) (date : Date) (m : ℕ) (ds : List Debt) (e : MonthEntry),
      e ∈ (simLoop P fuel date m ds).1 →
      e.out = stepMonth P.strategy P.extra_budget e.pre ∧ anyUnpaid e.pre = true := by
  intro fuel
  induction fuel with
  | zero => intro date m ds e he; simp [simLoop] at he
  | succ f ih =>
    intro date m ds e he
    by_cases hu : anyUnpaid ds
    · rw [simLoop_cons P f date m ds hu] at he
      rcases List.mem_cons.mp he with rfl | hmem
      · exact ⟨rfl, hu⟩
      · exact ih _ _ _ _ hmem
    · rw [(simLoop_stop P (f + 1) date m ds (by simpa using hu)).1] at he
      simp at he

lemma simLoop_nonneg (P : Params) :
    ∀ (fuel : ℕ) (date : Date) (m : ℕ) (ds : List Debt), (∀ d ∈ ds, 0 ≤ d.balance) →
      (∀ e ∈ (simLoop P fuel date m ds).1, ∀ d ∈ e.pre, 0 ≤ d.balance) ∧
      (∀ d ∈ (simLoop P fuel date m ds).2, 0 ≤ d.balance) := by
  intro fuel
  induction fuel with
  | zero =>
    intro date m ds h
    constructor
    · intro e he; simp [simLoop] at he
    · intro dd hd; simp only [simLoop] at hd; exact h dd hd
  | succ f ih =>
    intro date m ds h
    by_cases hu : anyUnpaid ds
    · rw [simLoop_cons P f date m ds hu]
      have hnext := ih (next_month date) (m + 1)
        (stepMonth P.strategy P.extra_budget ds).newDebts
        (stepMonth_newDebts_balance_nonneg _ _ _)
      constructor
      · intro e he
        rcases List.mem_cons.mp he with rfl | hmem
        · exact h
        · exact hnext.1 e hmem
      · exact hnext.2
    · constructor
      · intro e he
        rw [(simLoop_stop P (f + 1) date m ds (by simpa using hu)).1] at he
        simp at he
      · intro dd hd
        rw [(simLoop_stop P (f + 1) date m ds (by simpa using hu)).2] at hd
        exact h dd hd

lemma simLoop_suffix (P : Params) :
    ∀ (fuel : ℕ) (date : Date) (m : ℕ) (ds : List Debt) (n : ℕ) (e : MonthEntry),
      (simLoop P fuel date m ds).1[n]? = some e →
      ∃ f' dt' m',
        (simLoop P fuel date m ds).1.drop (n + 1) = (simLoop P f' dt' m' e.out.newDebts).1 := by
  intro fuel
  induction fuel with
  | zero => intro date m ds n e h; simp [simLoop] at h
  | succ f ih =>
    intro date m ds n e h
    by_cases hu : anyUnpaid ds
    · rw [simLoop_cons P f date m ds hu] at h ⊢
      cases n with
      | zero =>
        simp only [List.getElem?_cons_zero, Option.some.injEq] at h
        subst h
        exact ⟨f, next_month date, m + 1, rfl⟩
      | succ k =>
        simp only [List.getElem?_cons_succ] at h
        rw [List.drop_succ_cons]
        exact ih _ _ _ _ _ h
    · rw [(simLoop_stop P (f + 1) date m ds (by simpa using hu)).1] at h
      simp at h

lemma simLoop_zero_applied (P : Params) (i : ℕ) (d : Debt) (hb : d.balance = 0)
    (hx : 0 ≤ d.extra) :
    ∀ (fuel : ℕ) (date : Date) (m : ℕ) (ds : List Debt), ds[i]? = some d →
      ∀ e ∈ (simLoop P fuel date m ds).1, e.out.applied[i]? = some 0 := by
  intro fuel
  induction fuel with
  | zero => intro date m ds hi e he; simp [simLoop] at he
  | succ f ih =>
    intro date m ds hi e he
    by_cases hu : anyUnpaid ds
    · rw [simLoop_cons P f date m ds hu] at he
      rcases List.mem_cons.mp he with rfl | hmem
      · rw [stepMonth_applied_getElem?, hi]
        simp [appliedOf_of_zero _ _ hb hx]
      · refine ih _ _ (stepMonth P.strategy P.extra_budget ds).newDebts ?_ e hmem
        rw [stepMonth_newDebts_getElem?, hi]
        simp only [Option.map_some']
        rw [newBalOf_of_zero _ _ hb hx, debt_update_zero hb]
    · rw [(simLoop_stop P (f + 1) date m ds (by simpa using hu)).1] at he
      simp at he

/-! ## Lemmas about the strategy ordering -/

lemma keyLE_of_keyOf_eq {s : Strategy} {a b : ℕ × Debt} (h : keyOf s a.2 = keyOf s b.2) :
    keyLE s a b := by
  cases s
  · simp only [keyOf] at h
    rw [Prod.mk.injEq] at h
    exact Or.inr ⟨h.1, le_of_eq h.2.symm⟩
  · simp only [keyOf] at h
    rw [Prod.mk.injEq] at h
    exact Or.inr ⟨h.1, le_of_eq h.2⟩

lemma filter_orderedInsert (s : Strategy) (v : ℚ × ℚ) (x : ℕ × Debt) :
    ∀ l : List (ℕ × Debt),
      (List.orderedInsert (keyLE s) x l).filter (fun p => decide (keyOf s p.2 = v)) =
      if keyOf s x.2 = v then
        x :: l.filter (fun p => decide (keyOf s p.2 = v))
      else l.filter (fun p => decide (keyOf s p.2 = v)) := by
  intro l
  induction l with
  | nil =>
    by_cases hv : keyOf s x.2 = v <;>
      simp [List.orderedInsert, List.filter_cons, hv]
  | cons y t ih =>
    rw [List.orderedInsert]
    by_cases hxy : keyLE s x y
    · rw [if_pos hxy]
      by_cases hv : keyOf s x.2 = v <;> simp [List.filter_cons, hv]
    · rw [if_neg hxy]
      have hyne : ¬ (keyOf s y.2 = keyOf s x.2) := fun hEq => hxy (keyLE_of_keyOf_eq hEq.symm)
      by_cases hv : keyOf s x.2 = v
      · have hyv : ¬ (keyOf s y.2 = v) := fun hEq => hyne (hEq.trans hv.symm)
        simp [List.filter_cons, hv, hyv, ih]
      · by_cases hyv : keyOf s y.2 = v <;> simp [List.filter_cons, hv, hyv, ih]

lemma filter_insertionSort (s : Strategy) (v : ℚ × ℚ) :
    ∀ l : List (ℕ × Debt),
      (List.insertionSort (keyLE s) l).filter (fun p => decide (keyOf s p.2 = v)) =
      l.filter (fun p => decide (keyOf s p.2 = v)) := by
  intro l
  induction l with
  | nil => rfl
  | cons x t ih =>
    rw [List.insertionSort, filter_orderedInsert]
    by_cases hv : keyOf s x.2 = v <;> simp [List.filter_cons, hv, ih]

lemma orderKeyed_mem {s : Strategy} {ds : List Debt} {p : ℕ × Debt}
    (h : p ∈ orderKeyed s ds) : ds[p.1]? = some p.2 :=
  List.mem_enum_iff_getElem?.mp ((List.mem_insertionSort (keyLE s)).mp h)

lemma find?_split {α : Type} (p : α → Bool) :
    ∀ (l : List α) (a : α), l.find? p = some a →
      ∃ l1 l2, l = l1 ++ a :: l2 ∧ (∀ b ∈ l1, p b = false) := by
  intro l
  induction l with
  | nil => intro a h; simp at h
  | cons x t ih =>
    intro a h
    by_cases hx : p x = true
    · rw [List.find?_cons_of_pos _ hx] at h
      cases h
      exact ⟨[], t, rfl, by simp⟩
    · rw [List.find?_cons_of_neg _ (by simpa using hx)] at h
      obtain ⟨l1, l2, rfl, hall⟩ := ih a h
      refine ⟨x :: l1, l2, rfl, ?_⟩
      intro b hb
      rcases List.mem_cons.mp hb with rfl | hb
      · simpa using hx
      · exact hall b hb

lemma enum_map_snd_comp {α β : Type} (l : List α) (g : α → β) :
    l.enum.map (fun p => g p.2) = l.map g := by
  rw [show (fun p : ℕ × α => g p.2) = g ∘ Prod.snd from rfl, ← List.map_map, List.enum_map_snd]

lemma mem_zipWith {α β γ : Type} {f : α → β → γ} :
    ∀ {l1 : List α} {l2 : List β} {c : γ}, c ∈ List.zipWith f l1 l2 →
      ∃ a ∈ l1, ∃ b ∈ l2, c = f a b := by
  intro l1
  induction l1 with
  | nil => intro l2 c h; simp at h
  | cons x t ih =>
    intro l2 c h
    cases l2 with
    | nil => simp at h
    | cons y u =>
      rw [List.zipWith_cons_cons] at h
      rcases List.mem_cons.mp h with rfl | h
      · exact ⟨x, by simp, y, by simp, rfl⟩
      · obtain ⟨a, ha, b, hb, rfl⟩ := ih h
        exact ⟨a, by simp [ha], b, by simp [hb], rfl⟩

/-! ## The claims -/

/-- C1 (code bug witnessed): next_month does not advance a late-January
date: the ValueError fallback returns the last day of the current month,
so January 31 maps to January 31 again (in a leap year as well) and not
to February 28. -/
theorem next_month_jan31_stuck :
    next_month ⟨2025, 1, 31⟩ = ⟨2025, 1, 31⟩ ∧
    next_month ⟨2024, 1, 31⟩ = ⟨2024, 1, 31⟩ ∧
    next_month ⟨2025, 1, 31⟩ ≠ ⟨2025, 2, 28⟩ := by
  decide

/-- C7: order_debts is a stable total ordering of the rows: it is a
permutation of the positional indices, the keyed rows are sorted by the
strategy's lexicographic preorder (Balance ascending with Rate descending
for Snowball, Rate descending with Balance ascending for Avalanche), and
rows with equal sort keys keep their input order, stated as filter
invariance on every key value. -/
theorem order_debts_total_stable (s : Strategy) (d : List Debt) :
    (order_debts s d).Perm (List.range d.length) ∧
    List.Sorted (keyLE s) (orderKeyed s d) ∧
    ∀ v : ℚ × ℚ,
      (orderKeyed s d).filter (fun p => decide (keyOf s p.2 = v)) =
      d.enum.filter (fun p => decide (keyOf s p.2 = v)) := by
  refine ⟨?_, List.sorted_insertionSort _ _, fun v => filter_insertionSort s v d.enum⟩
  have h1 : List.Perm (orderKeyed s d) d.enum := List.perm_insertionSort _ _
  have h2 := h1.map Prod.fst
  rwa [List.enum_map_fst] at h2

/-- C8: the month loop terminates: the schedule holds at most max_months
records, every executed month still had some unpaid balance at its start,
and a fully paid table produces no further months, with no error in either
case. -/
theorem simulate_terminates (P : Params) (input : List Debt) :
    (simulate P input).1.length ≤ P.max_months.toNat ∧
    (simTrace P input).all (fun e => anyUnpaid e.pre) = true ∧
    ∀ (fuel : ℕ) (date : Date) (m : ℕ) (ds : List Debt),
      anyUnpaid ds = false → (simLoop P fuel date m ds).1 = [] := by
  refine ⟨?_, ?_, fun fuel date m ds h => (simLoop_stop P fuel date m ds h).1⟩
  · simp only [simulate, List.length_map]
    exact simLoop_trace_length P _ _ _ _
  · rw [List.all_eq_true]
    intro e he
    exact (simLoop_mem_out P _ _ _ _ e (by simpa [simTrace] using he)).2

/-- Witness for C8 at a concrete fully paid table. -/
theorem simulate_terminates_witness :
    (simLoop zeroHitParams 5 ⟨2025, 1, 1⟩ 0 []).1 = [] :=
  (simulate_terminates zeroHitParams []).2.2 5 ⟨2025, 1, 1⟩ 0 [] rfl

/-- C2 counterexample: with an invalid assumption (negative minimum-payment
floor) simulate still runs the loop and returns a one-record schedule
instead of rejecting the run with a validation error. -/
theorem simulate_accepts_invalid_assumptions :
    (simulate negFloorParams negFloorDebts).1.length = 1 := by
  decide!

/-- C2 (amended): simulate validates nothing: a non-positive max_months
yields an empty schedule whose result table echoes the input balances, a
negative extra_budget is silently ignored by the focus allocation, and a
negative min_floor is installed as a negative Payment and then silently
clamped to 0 by the base-payment clip. -/
theorem simulate_no_validation (P : Params) (input : List Debt) :
    (P.max_months ≤ 0 →
      (simulate P input).1 = [] ∧
      (simulate P input).2 =
        input.map (fun d => ⟨d, d.balance, decide (d.balance ≤ payoffEps)⟩)) ∧
    (P.extra_budget < 0 →
      ∀ e ∈ simTrace P input,
        e.out.pays = e.pre.map (fun d => max d.payment 0 + d.extra)) ∧
    (P.min_floor < 0 →
      ∀ d : Debt, d.payment ≤ 0 →
        (normalize P.min_floor d).payment = P.min_floor ∧
        max (normalize P.min_floor d).payment 0 = 0) := by
  refine ⟨?_, ?_, ?_⟩
  · intro h
    have h0 : P.max_months.toNat = 0 := Int.toNat_of_nonpos h
    constructor
    · simp [simulate, h0, simLoop]
    · simp only [simulate, h0, simLoop]
      rw [List.zipWith_map_right, List.zipWith_same]
      simp [normalize_balance]
  · intro h e he
    have hout := (simLoop_mem_out P _ _ _ _ e (by simpa [simTrace] using he)).1
    have hd : decide (0 < P.extra_budget) = false := decide_eq_false (by linarith)
    have hfun : ∀ p : ℕ × Debt,
        totalPayOf P.extra_budget (isFocusIdx (findFocus P.strategy e.pre) p.1) p.2 =
          max p.2.payment 0 + p.2.extra := by
      intro p
      unfold totalPayOf
      simp [hd]
    rw [hout]
    calc (stepMonth P.strategy P.extra_budget e.pre).pays
        = e.pre.enum.map (fun p =>
            totalPayOf P.extra_budget (isFocusIdx (findFocus P.strategy e.pre) p.1) p.2) := rfl
      _ = e.pre.enum.map (fun p => max p.2.payment 0 + p.2.extra) :=
            List.map_congr_left (fun p _ => hfun p)
      _ = e.pre.map (fun d => max d.payment 0 + d.extra) :=
            enum_map_snd_comp e.pre (fun d => max d.payment 0 + d.extra)
  · intro h d hp
    constructor
    · unfold normalize
      rw [if_pos hp]
    · unfold normalize
      rw [if_pos hp]
      exact max_eq_right h.le

/-- Witness for C2 (amended) at max_months = 0. -/
theorem simulate_no_validation_witness :
    (simulate ⟨0, 0, ⟨2025, 1, 1⟩, 0, .snowball⟩ negFloorDebts).1 = [] ∧
    (simulate ⟨0, 0, ⟨2025, 1, 1⟩, 0, .snowball⟩ negFloorDebts).2 =
      negFloorDebts.map (fun d => ⟨d, d.balance, decide (d.balance ≤ payoffEps)⟩) :=
  (simulate_no_validation ⟨0, 0, ⟨2025, 1, 1⟩, 0, .snowball⟩ negFloorDebts).1 (by decide)

/-- C9: interest accrues as balance * (rate / 12) each month; on the
one-debt Avalanche scenario the first month accrues interest 12, applies
payment 100 and leaves balance 1112 (down from 1200), the aggregate
balance strictly decreases every month, and the loop ends with the debt
paid strictly before 600 months. -/
theorem avalanche_scenario_holds :
    (∀ (s : Strategy) (eb : ℚ) (ds : List Debt),
        (stepMonth s eb ds).interest = ds.map (fun d => d.balance * (d.rate / 12))) ∧
    ((simulate avaParams avaDebts).1.get? 0).map Monthly.totalInterest = some 12 ∧
    ((simulate avaParams avaDebts).1.get? 0).map Monthly.totalPayment = some 100 ∧
    ((simulate avaParams avaDebts).1.get? 0).map Monthly.totalBalance = some 1112 ∧
    ((1112 : ℚ) < 1200) ∧
    strictDecreasing ((simulate avaParams avaDebts).1.map Monthly.totalBalance) = true ∧
    (simulate avaParams avaDebts).1.length < 600 ∧
    (simulate avaParams avaDebts).2.map DebtResult.isPaid = [true] := by
  refine ⟨fun s eb ds => rfl, ?_⟩
  decide!

/-- C3 counterexample: in the two-debt Snowball scenario debt A still owes
50 after two simulated months, well above the paid-off threshold, so A is
not paid off within 2 months. -/
theorem snowball_scenario_two_months_not_enough :
    (((simTrace snowParams snowDebts).get? 1).bind
        (fun e => e.out.newDebts.get? 0)).map Debt.balance = some 50 ∧
    ¬ ((50 : ℚ) ≤ payoffEps) := by
  decide!

/-- C3 (amended): in the two-debt Snowball scenario A's Payment is
normalized to 25, A is the focus and receives the 200 extra budget in
months 0, 1 and 2 (total monthly payment 225), A's balance reaches the
paid-off threshold at the end of month 2 — within 3 months, not 2 — and
from month 3 on the focus is B. -/
theorem snowball_scenario_amended :
    ((simTrace snowParams snowDebts).get? 0).map (fun e => e.pre.map Debt.payment) =
      some [25, 50] ∧
    ((simTrace snowParams snowDebts).get? 0).map (fun e => e.out.focus.map Prod.fst) =
      some (some 0) ∧
    ((simTrace snowParams snowDebts).get? 1).map (fun e => e.out.focus.map Prod.fst) =
      some (some 0) ∧
    ((simTrace snowParams snowDebts).get? 2).map (fun e => e.out.focus.map Prod.fst) =
      some (some 0) ∧
    ((simTrace snowParams snowDebts).get? 0).bind (fun e => e.out.pays.get? 0) = some 225 ∧
    ((simTrace snowParams snowDebts).get? 1).bind (fun e => e.out.pays.get? 0) = some 225 ∧
    ((simTrace snowParams snowDebts).get? 2).bind (fun e => e.out.pays.get? 0) = some 225 ∧
    (((simTrace snowParams snowDebts).get? 2).bind
        (fun e => e.out.newDebts.get? 0)).map Debt.balance = some 0 ∧
    ((0 : ℚ) ≤ payoffEps) ∧
    ((simTrace snowParams snowDebts).drop 3).all
      (fun e => decide (e.out.focus.map Prod.fst = some 1)) = true := by
  decide!

/-- C10 (implicit): only the Payment column is clipped non-negative; a
negative numeric Extra survives the load_data coercion (only missing or
non-numeric cells become 0), drives the month's applied payment negative
(-40 on the concrete run) and pushes the balance to 140, strictly above
balance + interest = 100; with non-negative Extra, balance and rate, the
new balance never exceeds balance + interest. -/
theorem negative_extra_grows_balance :
    (coerceCell none = 0 ∧ ∀ q : ℚ, coerceCell (some q) = q) ∧
    (((simTrace negExtraParams negExtraDebts).get? 0).bind
        (fun e => e.out.applied.get? 0) = some (-40) ∧
      ((-40 : ℚ) < 0) ∧
      (((simTrace negExtraParams negExtraDebts).get? 0).bind
        (fun e => e.out.newDebts.get? 0)).map Debt.balance = some 140 ∧
      (100 : ℚ) + interestOf ⟨"X", 100, 0, 10, -50⟩ < 140) ∧
    (∀ (eb : ℚ) (f : Bool) (d : Debt), 0 ≤ d.extra → 0 ≤ d.balance → 0 ≤ d.rate →
      newBalOf eb f d ≤ d.balance + interestOf d) := by
  refine ⟨⟨rfl, fun q => rfl⟩, by decide!, ?_⟩
  intro eb f d hx hb hr
  unfold newBalOf
  have hint : 0 ≤ interestOf d := by
    unfold interestOf
    exact mul_nonneg hb (div_nonneg hr (by norm_num))
  have hcap : 0 ≤ d.balance + interestOf d := by linarith
  have happ : 0 ≤ appliedOf eb f d := le_min (totalPayOf_nonneg eb f hx) hcap
  apply max_le
  · linarith
  · exact hcap

/-- Witness for C10 at a debt with non-negative fields. -/
theorem negative_extra_grows_balance_witness :
    newBalOf 0 false ⟨"W", 100, 0, 10, 5⟩ ≤
      (⟨"W", 100, 0, 10, 5⟩ : Debt).balance + interestOf ⟨"W", 100, 0, 10, 5⟩ :=
  negative_extra_grows_balance.2.2 0 false ⟨"W", 100, 0, 10, 5⟩
    (by decide!) (by decide!) (by decide!)

/-- C5: each month the applied payment of every debt is capped at its
balance plus interest, updated balances are never negative, balances stay
non-negative at the start of every month, and the final per-debt result
has no negative ending balance, for any input whose balances start
non-negative. -/
theorem no_negative_balances (P : Params) (input : List Debt)
    (h : ∀ d ∈ input, 0 ≤ d.balance) :
    (∀ e ∈ simTrace P input,
      (∀ (i : ℕ) (a : ℚ) (dd : Debt),
        e.out.applied[i]? = some a → e.pre[i]? = some dd →
          a ≤ dd.balance + interestOf dd) ∧
      (∀ dd ∈ e.out.newDebts, 0 ≤ dd.balance) ∧
      (∀ dd ∈ e.pre, 0 ≤ dd.balance)) ∧
    (∀ r ∈ (simulate P input).2, 0 ≤ r.ending) := by
  have hinit : ∀ d ∈ input.map (normalize P.min_floor), 0 ≤ d.balance := by
    intro d hd
    obtain ⟨d0, hd0, rfl⟩ := List.mem_map.mp hd
    rw [normalize_balance]
    exact h d0 hd0
  have hnn := simLoop_nonneg P P.max_months.toNat P.start_date 0 _ hinit
  constructor
  · intro e he
    have he' : e ∈ (simLoop P P.max_months.toNat P.start_date 0
        (input.map (normalize P.min_floor))).1 := by simpa [simTrace] using he
    have hout := (simLoop_mem_out P _ _ _ _ e he').1
    refine ⟨?_, ?_, hnn.1 e he'⟩
    · intro i a dd ha hd
      rw [hout, stepMonth_applied_getElem?, hd] at ha
      simp only [Option.map_some', Option.some.injEq] at ha
      rw [← ha]
      exact appliedOf_le_cap _ _ _
    · rw [hout]
      exact stepMonth_newDebts_balance_nonneg _ _ _
  · intro r hr
    simp only [simulate] at hr
    obtain ⟨o, _, fdbt, hf, rfl⟩ := mem_zipWith hr
    exact hnn.2 fdbt hf

/-- Witness for C5 at the exact-zero payoff run. -/
theorem no_negative_balances_witness :
    (∀ e ∈ simTrace zeroHitParams zeroHitDebts,
      (∀ (i : ℕ) (a : ℚ) (dd : Debt),
        e.out.applied[i]? = some a → e.pre[i]? = some dd →
          a ≤ dd.balance + interestOf dd) ∧
      (∀ dd ∈ e.out.newDebts, 0 ≤ dd.balance) ∧
      (∀ dd ∈ e.pre, 0 ≤ dd.balance)) ∧
    (∀ r ∈ (simulate zeroHitParams zeroHitDebts).2, 0 ≤ r.ending) :=
  no_negative_balances zeroHitParams zeroHitDebts (by decide!)

/-- C6: every month the focus is the first row in strategy order whose
balance exceeds 0.01, there is no focus exactly when all balances are at
most 0.01, and a positive extra budget is added to the total payment of
exactly the focus row and of no other row. -/
theorem focus_selection (s : Strategy) (eb : ℚ) (ds : List Debt) :
    ((stepMonth s eb ds).focus = none ↔ ∀ d ∈ ds, d.balance ≤ payoffEps) ∧
    (∀ (i : ℕ) (d : Debt), (stepMonth s eb ds).focus = some (i, d) →
      ds[i]? = some d ∧ payoffEps < d.balance ∧
      ∃ l1 l2, order_debts s ds = l1 ++ i :: l2 ∧
        ∀ j ∈ l1, ∃ dj : Debt, ds[j]? = some dj ∧ dj.balance ≤ payoffEps) ∧
    (∀ (i : ℕ) (d : Debt), (stepMonth s eb ds).focus = some (i, d) → 0 < eb →
      (stepMonth s eb ds).pays[i]? = some (max d.payment 0 + d.extra + eb) ∧
      ∀ (j : ℕ) (dj : Debt), j ≠ i → ds[j]? = some dj →
        (stepMonth s eb ds).pays[j]? = some (max dj.payment 0 + dj.extra)) ∧
    ((stepMonth s eb ds).focus = none →
      ∀ (j : ℕ) (dj : Debt), ds[j]? = some dj →
        (stepMonth s eb ds).pays[j]? = some (max dj.payment 0 + dj.extra)) := by
  refine ⟨?_, ?_, ?_, ?_⟩
  · rw [stepMonth_focus]
    unfold findFocus
    rw [List.find?_eq_none]
    constructor
    · intro hnone d hd
      obtain ⟨i, hi⟩ := List.mem_iff_getElem?.mp hd
      have hmem : (i, d) ∈ orderKeyed s ds :=
        (List.mem_insertionSort (keyLE s)).mpr (List.mem_enum_iff_getElem?.mpr hi)
      simpa using hnone (i, d) hmem
    · intro hall p hp
      have hd := orderKeyed_mem hp
      have hpm : p.2 ∈ ds := by
        obtain ⟨hlt, he⟩ := List.getElem?_eq_some.mp hd
        exact he ▸ List.getElem_mem _
      simpa using not_lt.mpr (hall p.2 hpm)
  · intro i d hf
    rw [stepMonth_focus] at hf
    unfold findFocus at hf
    have hmem := List.mem_of_find?_eq_some hf
    have hget : ds[i]? = some d := orderKeyed_mem hmem
    have hbal : payoffEps < d.balance := by simpa using List.find?_some hf
    obtain ⟨l1, l2, heq, hpre⟩ := find?_split _ _ _ hf
    refine ⟨hget, hbal, l1.map Prod.fst, l2.map Prod.fst, ?_, ?_⟩
    · unfold order_debts
      rw [heq]
      simp
    · intro j hj
      obtain ⟨q, hq, rfl⟩ := List.mem_map.mp hj
      refine ⟨q.2, ?_, ?_⟩
      · apply orderKeyed_mem
        rw [heq]
        exact List.mem_append_left _ hq
      · simpa using hpre q hq
  · intro i d hf heb
    rw [stepMonth_focus] at hf
    have hget : ds[i]? = some d :=
      orderKeyed_mem (List.mem_of_find?_eq_some hf)
    constructor
    · rw [stepMonth_pays_getElem?, hget]
      simp only [Option.map_some', Option.some.injEq]
      unfold totalPayOf
      rw [hf]
      unfold isFocusIdx
      simp [heb]
    · intro j dj hji hgj
      rw [stepMonth_pays_getElem?, hgj]
      simp only [Option.map_some', Option.some.injEq]
      unfold totalPayOf
      rw [hf]
      unfold isFocusIdx
      simp [hji]
  · intro hnone j dj hgj
    rw [stepMonth_focus] at hnone
    rw [stepMonth_pays_getElem?, hgj, hnone]
    unfold totalPayOf isFocusIdx
    simp

/-- Witness for C6 at the normalized two-debt Snowball table. -/
theorem focus_selection_witness :
    (stepMonth Strategy.snowball 200
      [⟨"A", 500, 0, 25, 0⟩, ⟨"B", 5000, 1/5, 50, 0⟩]).pays[1]? =
      some (max (50:ℚ) 0 + 0) :=
  ((focus_selection Strategy.snowball 200
      [⟨"A", 500, 0, 25, 0⟩, ⟨"B", 5000, 1/5, 50, 0⟩]).2.2.1
    0 ⟨"A", 500, 0, 25, 0⟩ (by decide!) (by decide!)).2
    1 ⟨"B", 5000, 1/5, 50, 0⟩ (by decide) (by decide!)

/-- C4 counterexample: debt A ends month 0 at balance 1/200 = 0.005,
inside the paid-off threshold, yet month 1 still applies the positive
payment 1/200 to it, so a paid-off debt (at threshold 0.01) can receive a
positive applied payment. -/
theorem residual_balance_gets_paid :
    (((simTrace residualParams residualDebts)[0]?).bind
        (fun e => e.out.newDebts[0]?)).map Debt.balance = some (1/200) ∧
    ((1/200 : ℚ) ≤ payoffEps) ∧
    ((simTrace residualParams residualDebts)[1]?).bind
        (fun e => e.out.applied[0]?) = some (1/200) ∧
    ((0 : ℚ) < 1/200) := by
  decide!

/-- C4 (amended): once a debt's balance is exactly 0 at the end of some
month of the run (and its Extra is non-negative), every later month of
the run applies payment 0 to it; for a residual balance in (0, 0.01] the
applied payment can still be positive (see the counterexample). -/
theorem paidoff_no_further_payment (P : Params) (input : List Debt)
    (i n m : ℕ) (d : Debt)
    (hnm : n < m) (hm : m < (simTrace P input).length)
    (h1 : ((simTrace P input)[n]?).bind (fun e => e.out.newDebts[i]?) = some d)
    (hb : d.balance = 0) (hx : 0 ≤ d.extra) :
    ((simTrace P input)[m]?).bind (fun e => e.out.applied[i]?) = some 0 := by
  cases he1 : (simTrace P input)[n]? with
  | none => rw [he1] at h1; simp at h1
  | some e1 =>
    rw [he1] at h1
    rw [show (some e1).bind (fun e => e.out.newDebts[i]?) = e1.out.newDebts[i]? from rfl] at h1
    obtain ⟨f', dt', m', hdrop⟩ :=
      simLoop_suffix P P.max_months.toNat P.start_date 0
        (input.map (normalize P.min_floor)) n e1 (by simpa [simTrace] using he1)
    have htr : (simTrace P input).drop (n + 1) = (simLoop P f' dt' m' e1.out.newDebts).1 := by
      simpa [simTrace] using hdrop
    cases he2 : (simTrace P input)[m]? with
    | none =>
      have hlen : (simTrace P input).length ≤ m := by
        simpa using List.getElem?_eq_none_iff.mp he2
      omega
    | some e2 =>
      have hm2 : ((simTrace P input).drop (n + 1))[m - (n + 1)]? = some e2 := by
        rw [List.getElem?_drop, show n + 1 + (m - (n + 1)) = m by omega]
        exact he2
      have he2mem : e2 ∈ (simLoop P f' dt' m' e1.out.newDebts).1 := by
        rw [htr] at hm2
        obtain ⟨hlt, hget⟩ := List.getElem?_eq_some.mp hm2
        exact hget ▸ List.getElem_mem _
      rw [show (some e2).bind (fun e => e.out.applied[i]?) = e2.out.applied[i]? from rfl]
      exact simLoop_zero_applied P i d hb hx f' dt' m' e1.out.newDebts h1 e2 he2mem

/-- Witness for C4 (amended) at the exact-zero payoff run. -/
theorem paidoff_no_further_payment_witness :
    ((simTrace zeroHitParams zeroHitDebts)[1]?).bind
      (fun e => e.out.applied[0]?) = some 0 :=
  paidoff_no_further_payment zeroHitParams zeroHitDebts 0 0 1 ⟨"A", 0, 0, 100, 0⟩
    (by decide) (by decide!) (by decide!) (by decide!) (by decide!)

end DebtDashboard
